import Mathlib

/-!
Shallow embedding of magento-config-exporter.py: a single-file command-line
tool that shells out to a platform CLI, filters the resulting key/value
lines by requested path prefixes, and writes the retained mapping to a
YAML file. Python strings are modelled as Lean String values; the Python
string builtins used by the script (strip, splitlines, split with a count
of one, startswith, the in operator, lower) are modelled character by
character below. The Python dict holding the export is modelled as an
association list with first-match overwrite, which matches dict update
semantics when, as here, every key occurs at most once.
-/

namespace MCE

/-- Whitespace test matching the characters removed by the Python strip
builtin (space, tab, newline, carriage return, vertical tab, form feed,
restricted to the ASCII range actually produced by the platform CLI). -/
def pyIsSpace (c : Char) : Bool :=
  c == ' ' || c == '\t' || c == '\n' || c == '\r' || c == '\x0b' || c == '\x0c'

/-- Model of the Python strip builtin with no arguments: remove leading and
trailing whitespace. -/
def pyStrip (s : String) : String :=
  ⟨((s.data.dropWhile pyIsSpace).reverse.dropWhile pyIsSpace).reverse⟩

/-- Line-break test for the Python splitlines builtin, restricted to the
line breaks that occur in command output (line feed and carriage return;
the carriage-return-line-feed pair is handled in splitlinesAux). -/
def isLineBreak (c : Char) : Bool :=
  c == '\n' || c == '\r'

/-- Character-level worker for splitlines: acc holds the current line in
reverse; a trailing line terminator does not open a final empty line. -/
def splitlinesAux : List Char → List Char → List (List Char)
  | [], acc => if acc.isEmpty then [] else [acc.reverse]
  | '\r' :: '\n' :: cs2, acc => acc.reverse :: splitlinesAux cs2 []
  | c :: cs, acc =>
    if isLineBreak c then acc.reverse :: splitlinesAux cs []
    else splitlinesAux cs (c :: acc)

/-- Model of the Python splitlines builtin. -/
def pySplitlines (s : String) : List String :=
  (splitlinesAux s.data []).map (fun l => ⟨l⟩)

/-- Inverse of line splitting: rejoin character-level lines with a line
feed between consecutive lines. -/
def unsplitL : List (List Char) → List Char
  | [] => []
  | [l] => l
  | l :: ls => l ++ '\n' :: unsplitL ls

/-- Boolean prefix test on character lists (the Python startswith
builtin applied to the underlying characters). -/
def isPrefixL : List Char → List Char → Bool
  | [], _ => true
  | _ :: _, [] => false
  | a :: as, b :: bs => a == b && isPrefixL as bs

/-- Model of the Python startswith builtin: does s start with p. -/
def startswith (s p : String) : Bool :=
  isPrefixL p.data s.data

/-- Scan for the first occurrence of sep; on a hit return the characters
before it and the characters after it (the Python split builtin with a
count of one). -/
def splitFirstAux (sep : List Char) : List Char → Option (List Char × List Char)
  | [] => none
  | c :: cs =>
    if isPrefixL sep (c :: cs) then some ([], (c :: cs).drop sep.length)
    else
      match splitFirstAux sep cs with
      | none => none
      | some (l, r) => some (c :: l, r)

/-- Model of the Python in operator on strings for a non-empty needle:
sub occurs somewhere in s. -/
def pyContains (s sub : String) : Bool :=
  (splitFirstAux sub.data s.data).isSome

/-- Split s at the first occurrence of sep into the part before and the
part after, when sep occurs at all. -/
def findSplit (sep s : String) : Option (String × String) :=
  (splitFirstAux sep.data s.data).map (fun lr => (⟨lr.1⟩, ⟨lr.2⟩))

/-- ASCII lower-casing of one character (the fragment of the Python lower
builtin relevant to comparing a console answer against y and yes). -/
def pyLowerChar (c : Char) : Char :=
  if 65 ≤ c.toNat ∧ c.toNat ≤ 90 then Char.ofNat (c.toNat + 32) else c

/-- Model of the Python lower builtin on ASCII strings. -/
def pyLower (s : String) : String :=
  ⟨s.data.map pyLowerChar⟩

/-- Separator on which each output line of the config dump is split
(source line 134 and 136). -/
def sepDash : String := " - "

/-- Apostrophe character, built by code point to keep the file free of
quote-mark tokens. -/
def apos : String := String.singleton (Char.ofNat 39)

/-- Substring that marks a stderr text the platform CLI already made
human readable (source line 53). -/
def doesntExist : String := "doesn" ++ apos ++ "t exist"

/-- Python dict insertion d[k] = v on an association list: overwrite the
first entry carrying key k, else append a fresh entry at the end. -/
def dictInsert : List (String × String) → String → String → List (String × String)
  | [], k, v => [(k, v)]
  | (k0, v0) :: rest, k, v =>
    if k0 == k then (k0, v) :: rest else (k0, v0) :: dictInsert rest k v

/-- Membership of a key in the association-list dict. -/
def hasKey (d : List (String × String)) (k : String) : Bool :=
  d.any (fun kv => kv.1 == k)

/-- Parse one line of command output: skip it when the separator is
absent, otherwise split at its first occurrence and strip both parts
(source lines 133 to 138). -/
def parseLine (line : String) : Option (String × String) :=
  match findSplit sepDash line with
  | none => none
  | some kv => some (pyStrip kv.1, pyStrip kv.2)

/-- Body of the inner loop over requested path prefixes (source lines 141
to 143): insert the parsed pair once per prefix the key starts with. -/
def pathStep (k v : String) (d : List (String × String)) (p : String) : List (String × String) :=
  if startswith k p then dictInsert d k v else d

/-- Processing of one output line against the whole prefix list (source
lines 133 to 143). -/
def lineStep (paths : List String) (d : List (String × String)) (line : String) : List (String × String) :=
  match parseLine line with
  | none => d
  | some kv => paths.foldl (pathStep kv.1 kv.2) d

/-- The filter and transform stage: fold every output line into the
initially empty inner mapping of the export document. -/
def collect (paths lines : List String) : List (String × String) :=
  lines.foldl (lineStep paths) []

/-- Captured result of the single external process invocation: exit code,
standard output and standard error. -/
structure CmdResult where
  returncode : Int
  stdout : String
  stderr : String
deriving DecidableEq

/-- Embedding of run_command (source lines 45 to 59). On a non-zero exit
code the stripped stderr is surfaced either verbatim, when it contains
the marker substring, or wrapped in a generic failure message naming the
command line; the error value models the message printed before the
process exits with status 1. On a zero exit code the whole stdout is
stripped and then split into lines. -/
def run_command (cmd : String) (res : CmdResult) : Except String (List String) :=
  if res.returncode ≠ 0 then
    if pyContains (pyStrip res.stderr) doesntExist then Except.error (pyStrip res.stderr)
    else Except.error ("Command failed: " ++ cmd ++ "\n" ++ pyStrip res.stderr)
  else Except.ok (pySplitlines (pyStrip res.stdout))

/-- Error kind of the input loader, named ConfigError as in the
specification: the paths file is absent, or the loaded document yields no
usable paths list. -/
inductive ConfigError where
  | fileNotFound : ConfigError
  | noPaths : ConfigError
deriving DecidableEq

/-- Embedding of the input loading step (source lines 104 to 116). The
outer Option is file existence; the inner Option is the presence of the
paths key in the loaded document. A missing key defaults to the empty
list, and an empty list is rejected exactly like a missing key. -/
def loadPaths (doc : Option (Option (List String))) : Except ConfigError (List String) :=
  match doc with
  | none => Except.error ConfigError.fileNotFound
  | some d => if (d.getD []).isEmpty then Except.error ConfigError.noPaths else Except.ok (d.getD [])

/-- Parsed command-line arguments of the script (source lines 79 to 94). -/
structure Args where
  paths_file : String
  magento_dir : String
  scope : String
  scope_code : Option String
  output_dir : Option String
  no_interaction : Bool
deriving DecidableEq

/-- Environment a run executes in: whether the platform binary exists,
the content of the paths file, the external command result, and the
console answer read at the confirmation prompt. -/
structure Env where
  binExists : Bool
  pathsDoc : Option (Option (List String))
  cmdResult : CmdResult
  answer : String
deriving DecidableEq

/-- Python truthiness of the optional scope code (source lines 122, 130
and 157 test the raw option value, so an empty string counts as absent). -/
def scopeCodeTruthy (a : Args) : Bool :=
  match a.scope_code with
  | none => false
  | some c => !(c == "")

/-- Label under which the export is grouped (source line 130): the scope
code when truthy, else the scope name. -/
def scopeLabel (a : Args) : String :=
  if scopeCodeTruthy a then a.scope_code.getD "" else a.scope

/-- Output filename (source lines 156 to 160). -/
def outputFilename (a : Args) : String :=
  if scopeCodeTruthy a then a.scope ++ "-" ++ a.scope_code.getD "" ++ ".yaml"
  else a.scope ++ ".yaml"

/-- Path of the platform binary (source line 97). -/
def magentoBin (a : Args) : String :=
  a.magento_dir ++ "/bin/magento"

/-- Command line joined from the base command pieces (source lines 121 to
126). -/
def buildCmd (a : Args) : String :=
  magentoBin a ++ " config:show --scope=" ++ a.scope ++
    (if scopeCodeTruthy a then " --scope-code=" ++ a.scope_code.getD "" else "")

/-- Gate predicate of the confirmation prompt (source lines 170 to 174):
the answer is stripped, lower-cased, and accepted exactly when the result
is y or yes. -/
def confirmAccepts (ans : String) : Bool :=
  pyLower (pyStrip ans) == "y" || pyLower (pyStrip ans) == "yes"

/-- Escape of one character inside a double-quoted YAML scalar: only the
backslash, the double quote and the line feed need rewriting among the
characters the tool meets; every other character, including non-ASCII,
passes through literally (allow_unicode is set at source line 178). -/
def yamlEscapeChar (c : Char) : List Char :=
  if c = '\\' then ['\\', '\\']
  else if c = '"' then ['\\', '"']
  else if c = '\n' then ['\\', 'n']
  else [c]

/-- Double-quoted YAML rendering of a string scalar, the effect of the
QuotedString marker class and its representer (source lines 35 to 40). -/
def yamlQuote (s : String) : String :=
  ⟨'"' :: (s.data.map yamlEscapeChar).flatten ++ ['"']⟩

/-- Lexicographic comparison of character lists by code point, the order
Python sorted uses on strings. -/
def strLeAux : List Char → List Char → Bool
  | [], _ => true
  | _ :: _, [] => false
  | a :: as, b :: bs =>
    if a.toNat < b.toNat then true
    else if b.toNat < a.toNat then false
    else strLeAux as bs

/-- Code-point order on strings. -/
def strLe (a b : String) : Bool :=
  strLeAux a.data b.data

/-- Ordered insertion of one entry by key. -/
def insertByKey (x : String × String) : List (String × String) → List (String × String)
  | [] => [x]
  | y :: ys => if strLe x.1 y.1 then x :: y :: ys else y :: insertByKey x ys

/-- Sorting of the export entries by key, the effect of sort_keys at
source line 178. -/
def sortByKey : List (String × String) → List (String × String)
  | [] => []
  | x :: xs => insertByKey x (sortByKey xs)

/-- Order between export entries compared on their keys, the order the
sorted serialization arranges them in. -/
def keyLe (a b : String × String) : Prop := strLe a.1 b.1 = true

/-- Concatenation of rendered fragments. -/
def concatList : List String → String
  | [] => ""
  | s :: rest => s ++ concatList rest

/-- One rendered mapping entry of the nested block mapping, at the
two-space indent yaml.dump uses. -/
def entryLine (kv : String × String) : String :=
  "  " ++ yamlQuote kv.1 ++ ": " ++ yamlQuote kv.2 ++ "\n"

/-- Embedding of yaml.dump applied to the two-level export document
(source lines 177 to 178): the single top-level key is the quoted scope
label; an empty inner mapping renders in flow style, a non-empty one as
a block mapping with entries sorted by key. -/
def serializeExport (label : String) (d : List (String × String)) : String :=
  if (sortByKey d).isEmpty then yamlQuote label ++ ": \x7b\x7d\n"
  else yamlQuote label ++ ":\n" ++ concatList ((sortByKey d).map entryLine)

/-- The export document (source lines 129 to 131): one top-level entry
mapping the scope label to the inner mapping. -/
def exportDoc (label : String) (d : List (String × String)) : List (String × List (String × String)) :=
  [(label, d)]

/-- Terminal outcome of a run. -/
inductive Outcome where
  | errBin : Outcome
  | errConfig : ConfigError → Outcome
  | errCmd : String → Outcome
  | aborted : Outcome
  | written : String → String → Nat → Outcome
deriving DecidableEq

/-- Full observable result of a run: the terminal outcome, whether the
external command was invoked, and whether usage help was printed. -/
structure RunResult where
  outcome : Outcome
  invoked : Bool
  helpPrinted : Bool
deriving DecidableEq

/-- Exit status of the process for each outcome: zero only on a written
file. -/
def exitStatus : Outcome → Nat
  | Outcome.written _ _ _ => 0
  | _ => 1

/-- Name and byte content of the written file, when one is written. -/
def fileWritten (r : RunResult) : Option (String × String) :=
  match r.outcome with
  | Outcome.written fn content _ => some (fn, content)
  | _ => none

/-- Embedding of main (source lines 64 to 180), with the stages in source
order: binary existence check, paths loading with usage help on failure,
one external command invocation, filter and transform, confirmation gate,
and the final write reporting the number of exported values. -/
def runMain (a : Args) (env : Env) : RunResult :=
  if !env.binExists then ⟨Outcome.errBin, false, false⟩
  else
    match loadPaths env.pathsDoc with
    | Except.error e => ⟨Outcome.errConfig e, false, true⟩
    | Except.ok paths =>
      match run_command (buildCmd a) env.cmdResult with
      | Except.error msg => ⟨Outcome.errCmd msg, true, false⟩
      | Except.ok lines =>
        let d := collect paths lines
        if !a.no_interaction && !confirmAccepts env.answer then ⟨Outcome.aborted, true, false⟩
        else ⟨Outcome.written (outputFilename a) (serializeExport (scopeLabel a) d) d.length, true, false⟩

theorem hasKey_dictInsert (d : List (String × String)) (k v k' : String) :
    (hasKey (dictInsert d k v) k' = true) ↔ (hasKey d k' = true ∨ k = k') := by
  induction d with
  | nil => simp [dictInsert, hasKey]
  | cons kv0 rest ih =>
    obtain ⟨k0, v0⟩ := kv0
    by_cases h : k0 = k
    · subst h
      simp [dictInsert, hasKey]
      tauto
    · have hb : (k0 == k) = false := by simp [h]
      simp [dictInsert, hb, hasKey] at ih ⊢
      tauto

theorem hasKey_pathStep (k v k' : String) (d : List (String × String)) (p : String) :
    hasKey (pathStep k v d p) k' = true ↔
      (hasKey d k' = true ∨ (k = k' ∧ startswith k p = true)) := by
  by_cases hs : startswith k p = true
  · simp only [pathStep, hs, if_true]
    rw [hasKey_dictInsert]
    tauto
  · simp only [pathStep, hs, if_false]
    tauto

theorem hasKey_pathsFold (k v k' : String) (paths : List String) (d : List (String × String)) :
    hasKey (paths.foldl (pathStep k v) d) k' = true ↔
      (hasKey d k' = true ∨ (k = k' ∧ ∃ p ∈ paths, startswith k p = true)) := by
  induction paths generalizing d with
  | nil => simp
  | cons p ps ih =>
    simp only [List.foldl_cons]
    rw [ih, hasKey_pathStep]
    simp only [List.mem_cons, exists_eq_or_imp]
    tauto

theorem hasKey_lineStep (paths : List String) (d : List (String × String)) (line k' : String) :
    hasKey (lineStep paths d line) k' = true ↔
      (hasKey d k' = true ∨
        ∃ v, parseLine line = some (k', v) ∧ ∃ p ∈ paths, startswith k' p = true) := by
  unfold lineStep
  cases hp : parseLine line with
  | none => simp
  | some kv =>
    obtain ⟨k0, v0⟩ := kv
    rw [hasKey_pathsFold]
    constructor
    · rintro (h | ⟨rfl, hex⟩)
      · exact Or.inl h
      · exact Or.inr ⟨v0, rfl, hex⟩
    · rintro (h | ⟨v, hv, hex⟩)
      · exact Or.inl h
      · obtain ⟨rfl, rfl⟩ : k0 = k' ∧ v0 = v := by
          have := Option.some.inj hv
          exact ⟨congrArg Prod.fst this, congrArg Prod.snd this⟩
        exact Or.inr ⟨rfl, hex⟩

theorem hasKey_collectFold (paths lines : List String) (d : List (String × String)) (k : String) :
    hasKey (lines.foldl (lineStep paths) d) k = true ↔
      (hasKey d k = true ∨
        ∃ line ∈ lines, ∃ v, parseLine line = some (k, v) ∧ ∃ p ∈ paths, startswith k p = true) := by
  induction lines generalizing d with
  | nil => simp
  | cons l ls ih =>
    simp only [List.foldl_cons]
    rw [ih, hasKey_lineStep]
    simp only [List.mem_cons, exists_eq_or_imp]
    aesop

/-- C1: every output line containing the separator is split at its first
occurrence into a trimmed key and value, and the key is present in the
exported mapping exactly when it starts with at least one requested path
prefix; lines without the separator are skipped and leave the mapping
unchanged, so the mapping holds exactly the retained keys. -/
theorem exported_keys_exact (paths lines : List String) (k : String) :
    (hasKey (collect paths lines) k = true ↔
      ∃ line ∈ lines, ∃ v, parseLine line = some (k, v) ∧ ∃ p ∈ paths, startswith k p = true)
    ∧ (∀ line d, pyContains line sepDash = false → lineStep paths d line = d) := by
  constructor
  · unfold collect
    rw [hasKey_collectFold]
    simp [hasKey]
  · intro line d h
    have hnone : splitFirstAux sepDash.data line.data = none := by
      cases hx : splitFirstAux sepDash.data line.data with
      | none => rfl
      | some lr => rw [pyContains, hx] at h; simp at h
    unfold lineStep parseLine findSplit
    rw [hnone]
    rfl

/-- Witness for C1 at a concrete line and prefix list. -/
theorem exported_keys_exact_witness :
    hasKey (collect ["web/seo"] ["web/seo/use_rewrites - 1"]) "web/seo/use_rewrites" = true :=
  (exported_keys_exact ["web/seo"] ["web/seo/use_rewrites - 1"] "web/seo/use_rewrites").1.mpr
    ⟨"web/seo/use_rewrites - 1", by simp, "1", by decide, "web/seo", by simp, by decide⟩

theorem splitlinesAux_eq_nil_iff (cs acc : List Char) :
    splitlinesAux cs acc = [] ↔ (cs = [] ∧ acc = []) := by
  induction cs, acc using splitlinesAux.induct with
  | case1 acc hacc => simp [splitlinesAux, hacc, List.isEmpty_iff.mp hacc]
  | case2 acc hacc =>
    simp [splitlinesAux, hacc]
    exact fun h => hacc (by simp [h])
  | case3 cs2 acc ih => simp [splitlinesAux]
  | case4 c cs acc hne hbr ih =>
    rw [show splitlinesAux (c :: cs) acc = acc.reverse :: splitlinesAux cs [] by
      simp [splitlinesAux, hbr, hne]]
    simp
  | case5 c cs acc hne hbr ih =>
    have h1 : c ≠ '\r' := by
      intro h
      subst h
      simp [isLineBreak] at hbr
    have h2 : c ≠ '\n' := by
      intro h
      subst h
      simp [isLineBreak] at hbr
    rw [show splitlinesAux (c :: cs) acc = splitlinesAux cs (c :: acc) by
      simp [splitlinesAux, isLineBreak, h1, h2]]
    simp [ih]

theorem unsplitL_cons (x : List Char) (rest : List (List Char)) (h : rest ≠ []) :
    unsplitL (x :: rest) = x ++ '\n' :: unsplitL rest := by
  cases rest with
  | nil => exact absurd rfl h
  | cons y ys => rfl

theorem unsplitL_splitlinesAux (cs acc : List Char) :
    '\r' ∉ cs → cs.getLast? ≠ some '\n' →
    unsplitL (splitlinesAux cs acc) = acc.reverse ++ cs := by
  induction cs, acc using splitlinesAux.induct with
  | case1 acc hacc =>
    intro _ _
    simp [splitlinesAux, hacc, List.isEmpty_iff.mp hacc, unsplitL]
  | case2 acc hacc =>
    intro _ _
    simp [splitlinesAux, hacc, unsplitL]
  | case3 cs2 acc ih =>
    intro hr _
    exact absurd (List.mem_cons_self _ _) hr
  | case4 c cs acc hne hbr ih =>
    intro hr hl
    have h1 : c ≠ '\r' := by
      intro h
      subst h
      exact hr (List.mem_cons_self _ _)
    have hc : c = '\n' := by
      simp [isLineBreak, h1] at hbr
      exact hbr
    subst hc
    have hcs : cs ≠ [] := by
      intro h
      subst h
      simp at hl
    have hrest : splitlinesAux cs [] ≠ [] := by
      intro h
      exact hcs ((splitlinesAux_eq_nil_iff cs []).mp h).1
    have hr2 : '\r' ∉ cs := fun h => hr (List.mem_cons_of_mem _ h)
    have hl2 : cs.getLast? ≠ some '\n' := by
      cases cs with
      | nil => exact absurd rfl hcs
      | cons b bs => simpa using hl
    rw [show splitlinesAux ('\n' :: cs) acc = acc.reverse :: splitlinesAux cs [] from rfl,
      unsplitL_cons _ _ hrest, ih hr2 hl2]
    simp
  | case5 c cs acc hne hbr ih =>
    intro hr hl
    have h1 : c ≠ '\r' := by
      intro h
      subst h
      simp [isLineBreak] at hbr
    have h2 : c ≠ '\n' := by
      intro h
      subst h
      simp [isLineBreak] at hbr
    have hr2 : '\r' ∉ cs := fun h => hr (List.mem_cons_of_mem _ h)
    have hl2 : cs.getLast? ≠ some '\n' := by
      cases cs with
      | nil => simp
      | cons b bs => simpa using hl
    rw [show splitlinesAux (c :: cs) acc = splitlinesAux cs (c :: acc) by
      simp [splitlinesAux, isLineBreak, h1, h2]]
    rw [ih hr2 hl2]
    simp

theorem pyStrip_data (s : String) :
    (pyStrip s).data = ((s.data.dropWhile pyIsSpace).reverse.dropWhile pyIsSpace).reverse := rfl

theorem head?_dropWhile_not (p : Char → Bool) (l : List Char) (c : Char)
    (h : (l.dropWhile p).head? = some c) : p c = false := by
  induction l with
  | nil => simp [List.dropWhile] at h
  | cons a as ih =>
    by_cases hp : p a
    · rw [List.dropWhile_cons_of_pos hp] at h
      exact ih h
    · rw [List.dropWhile_cons_of_neg hp] at h
      cases Option.some.inj h
      simp at hp
      exact hp

theorem mem_dropWhile_sub (p : Char → Bool) (l : List Char) (c : Char)
    (h : c ∈ l.dropWhile p) : c ∈ l := by
  induction l with
  | nil =>
    simp [List.dropWhile] at h
  | cons a as ih =>
    by_cases hp : p a
    · rw [List.dropWhile_cons_of_pos hp] at h
      exact List.mem_cons_of_mem _ (ih h)
    · rw [List.dropWhile_cons_of_neg hp] at h
      exact h

theorem mem_pyStrip_sub (s : String) (c : Char) (h : c ∈ (pyStrip s).data) : c ∈ s.data := by
  rw [pyStrip_data, List.mem_reverse] at h
  have h2 := mem_dropWhile_sub _ _ _ h
  rw [List.mem_reverse] at h2
  exact mem_dropWhile_sub _ _ _ h2

theorem pyStrip_getLast_not_space (s : String) (c : Char)
    (h : (pyStrip s).data.getLast? = some c) : pyIsSpace c = false := by
  rw [pyStrip_data, List.getLast?_reverse] at h
  exact head?_dropWhile_not _ _ c h

theorem map_data_map_mk (L : List (List Char)) :
    (L.map (fun l => (⟨l⟩ : String))).map String.data = L := by
  induction L with
  | nil => rfl
  | cons x xs ih =>
    rw [List.map_cons, List.map_cons, ih]

/-- C2 counterexample: a successful run whose stdout holds an interior
blank line and a line with surrounding spaces keeps both as they are, so
the returned lines are neither all trimmed nor all non-empty. -/
theorem run_command_untrimmed_counterexample :
    run_command "cmd" ⟨0, "a\n\n b ", ""⟩ = Except.ok ["a", "", " b"] ∧
    "" ∈ ["a", "", " b"] ∧ pyStrip " b" ≠ " b" := by
  refine ⟨rfl, by decide, by decide⟩

/-- C2 amended: on a zero exit status run_command returns the whole stdout
stripped of surrounding whitespace and then split into lines; interior
lines are returned as they are, so they may be empty or carry surrounding
whitespace. For line-feed-separated output the returned lines, rejoined
with a line feed between consecutive lines, reproduce the stripped stdout
exactly. -/
theorem run_command_success_amended (cmd : String) (res : CmdResult)
    (h : res.returncode = 0) (hcr : '\r' ∉ res.stdout.data) :
    run_command cmd res = Except.ok (pySplitlines (pyStrip res.stdout)) ∧
    unsplitL ((pySplitlines (pyStrip res.stdout)).map String.data) = (pyStrip res.stdout).data := by
  constructor
  · simp [run_command, h]
  · have hmap : (pySplitlines (pyStrip res.stdout)).map String.data
        = splitlinesAux (pyStrip res.stdout).data [] := by
      rw [pySplitlines, map_data_map_mk]
    rw [hmap]
    have hinv := unsplitL_splitlinesAux (pyStrip res.stdout).data []
    rw [List.reverse_nil, List.nil_append] at hinv
    apply hinv
    · intro hc
      exact hcr (mem_pyStrip_sub _ _ hc)
    · intro hlast
      have hsp := pyStrip_getLast_not_space res.stdout '\n' hlast
      simp [pyIsSpace] at hsp

/-- Witness for the amended C2 at a concrete successful command result. -/
theorem run_command_success_amended_witness :
    run_command "cmd" ⟨0, " x\ny ", ""⟩ = Except.ok (pySplitlines (pyStrip " x\ny ")) ∧
    unsplitL ((pySplitlines (pyStrip " x\ny ")).map String.data) = (pyStrip " x\ny ").data :=
  run_command_success_amended "cmd" ⟨0, " x\ny ", ""⟩ rfl (by decide)

/-- C3 counterexample: the answer with surrounding spaces around the
letter y differs from y and yes even compared case-insensitively, yet the
run writes the output file and exits with status zero, because the code
strips the answer before comparing. -/
theorem confirmation_gate_counterexample :
    pyLower " y " ≠ "y" ∧ pyLower " y " ≠ "yes" ∧ " y " ≠ "" ∧
    fileWritten (runMain ⟨"paths.yaml", ".", "default", none, none, false⟩
      ⟨true, some (some ["web/seo"]), ⟨0, "web/seo/x - 1", ""⟩, " y "⟩) ≠ none ∧
    exitStatus (runMain ⟨"paths.yaml", ".", "default", none, none, false⟩
      ⟨true, some (some ["web/seo"]), ⟨0, "web/seo/x - 1", ""⟩, " y "⟩).outcome = 0 := by
  exact ⟨by decide, by decide, by decide, by decide, by decide⟩

/-- C3 amended: with the gate active, the answer is first stripped of
surrounding whitespace and lower-cased; when the result is neither y nor
yes (the empty answer included) the run aborts with exit status one and
writes no file, and when the result is y or yes the run proceeds to the
write. -/
theorem confirmation_gate_amended (a : Args) (env : Env)
    (hbin : env.binExists = true)
    (hload : ∃ ps, loadPaths env.pathsDoc = Except.ok ps)
    (hrc : env.cmdResult.returncode = 0)
    (hni : a.no_interaction = false) :
    (pyLower (pyStrip env.answer) ≠ "y" ∧ pyLower (pyStrip env.answer) ≠ "yes" →
      (runMain a env).outcome = Outcome.aborted ∧
      exitStatus (runMain a env).outcome = 1 ∧
      fileWritten (runMain a env) = none) ∧
    ((pyLower (pyStrip env.answer) = "y" ∨ pyLower (pyStrip env.answer) = "yes") →
      ∃ content n, (runMain a env).outcome = Outcome.written (outputFilename a) content n) := by
  obtain ⟨ps, hps⟩ := hload
  have hrun : run_command (buildCmd a) env.cmdResult
      = Except.ok (pySplitlines (pyStrip env.cmdResult.stdout)) := by
    simp [run_command, hrc]
  constructor
  · intro ⟨hy, hyes⟩
    have hacc : confirmAccepts env.answer = false := by
      simp [confirmAccepts, hy, hyes]
    simp [runMain, hbin, hps, hrun, hni, hacc, exitStatus, fileWritten]
  · intro hy
    have hacc : confirmAccepts env.answer = true := by
      rcases hy with h | h <;> simp [confirmAccepts, h]
    refine ⟨serializeExport (scopeLabel a) (collect ps (pySplitlines (pyStrip env.cmdResult.stdout))),
      (collect ps (pySplitlines (pyStrip env.cmdResult.stdout))).length, ?_⟩
    simp [runMain, hbin, hps, hrun, hni, hacc]

/-- Witness for the amended C3: a declining answer aborts with status one
and no file, at a concrete run. -/
theorem confirmation_gate_amended_witness :
    (runMain ⟨"paths.yaml", ".", "default", none, none, false⟩
      ⟨true, some (some ["web/seo"]), ⟨0, "web/seo/x - 1", ""⟩, "no"⟩).outcome = Outcome.aborted ∧
    exitStatus (runMain ⟨"paths.yaml", ".", "default", none, none, false⟩
      ⟨true, some (some ["web/seo"]), ⟨0, "web/seo/x - 1", ""⟩, "no"⟩).outcome = 1 ∧
    fileWritten (runMain ⟨"paths.yaml", ".", "default", none, none, false⟩
      ⟨true, some (some ["web/seo"]), ⟨0, "web/seo/x - 1", ""⟩, "no"⟩) = none :=
  (confirmation_gate_amended ⟨"paths.yaml", ".", "default", none, none, false⟩
    ⟨true, some (some ["web/seo"]), ⟨0, "web/seo/x - 1", ""⟩, "no"⟩
    rfl ⟨["web/seo"], rfl⟩ rfl rfl).1 (by decide)

/-- C4 counterexample: a failing command whose stderr carries the marker
substring and a trailing line feed is surfaced with the line feed
stripped, so the surfaced message is not the stderr text verbatim. -/
theorem stderr_not_verbatim_counterexample :
    run_command "cmd" ⟨1, "", "store doesn" ++ apos ++ "t exist\n"⟩
      = Except.error ("store doesn" ++ apos ++ "t exist") ∧
    "store doesn" ++ apos ++ "t exist" ≠ "store doesn" ++ apos ++ "t exist\n" := by
  exact ⟨rfl, by decide⟩

/-- C4 amended: on a non-zero exit the stderr trimmed of surrounding
whitespace is surfaced, verbatim apart from that trim when it contains
the marker substring and wrapped in the generic command-failed message
naming the command line otherwise; either way the run ends with exit
status one, no file is written, and the command was invoked. -/
theorem command_failure_amended (a : Args) (env : Env)
    (hbin : env.binExists = true)
    (hload : ∃ ps, loadPaths env.pathsDoc = Except.ok ps)
    (hrc : env.cmdResult.returncode ≠ 0) :
    (runMain a env).outcome = Outcome.errCmd
      (if pyContains (pyStrip env.cmdResult.stderr) doesntExist
        then pyStrip env.cmdResult.stderr
        else "Command failed: " ++ buildCmd a ++ "\n" ++ pyStrip env.cmdResult.stderr) ∧
    exitStatus (runMain a env).outcome = 1 ∧
    fileWritten (runMain a env) = none ∧
    (runMain a env).invoked = true := by
  obtain ⟨ps, hps⟩ := hload
  have hrun : run_command (buildCmd a) env.cmdResult
      = Except.error (if pyContains (pyStrip env.cmdResult.stderr) doesntExist
          then pyStrip env.cmdResult.stderr
          else "Command failed: " ++ buildCmd a ++ "\n" ++ pyStrip env.cmdResult.stderr) := by
    by_cases hd : pyContains (pyStrip env.cmdResult.stderr) doesntExist
    · simp [run_command, hrc, hd]
    · simp [run_command, hrc, hd]
  simp [runMain, hbin, hps, hrun, exitStatus, fileWritten]

/-- Witness for the amended C4 at a concrete failing command result. -/
theorem command_failure_amended_witness :
    (runMain ⟨"paths.yaml", ".", "default", none, none, true⟩
      ⟨true, some (some ["web/seo"]), ⟨1, "", "boom\n"⟩, ""⟩).outcome = Outcome.errCmd
      (if pyContains (pyStrip "boom\n") doesntExist
        then pyStrip "boom\n"
        else "Command failed: "
          ++ buildCmd ⟨"paths.yaml", ".", "default", none, none, true⟩
          ++ "\n" ++ pyStrip "boom\n") ∧
    exitStatus (runMain ⟨"paths.yaml", ".", "default", none, none, true⟩
      ⟨true, some (some ["web/seo"]), ⟨1, "", "boom\n"⟩, ""⟩).outcome = 1 ∧
    fileWritten (runMain ⟨"paths.yaml", ".", "default", none, none, true⟩
      ⟨true, some (some ["web/seo"]), ⟨1, "", "boom\n"⟩, ""⟩) = none ∧
    (runMain ⟨"paths.yaml", ".", "default", none, none, true⟩
      ⟨true, some (some ["web/seo"]), ⟨1, "", "boom\n"⟩, ""⟩).invoked = true :=
  command_failure_amended ⟨"paths.yaml", ".", "default", none, none, true⟩
    ⟨true, some (some ["web/seo"]), ⟨1, "", "boom\n"⟩, ""⟩
    rfl ⟨["web/seo"], rfl⟩ (by decide)

/-- C5 counterexample: supplying an empty scope code is falsy in the
source conditions, so the filename lacks the dash-suffixed scope code and
the top-level label falls back to the scope name, against the claim. -/
theorem empty_scope_code_counterexample :
    (⟨"paths.yaml", ".", "default", some "", none, true⟩ : Args).scope_code = some "" ∧
    outputFilename ⟨"paths.yaml", ".", "default", some "", none, true⟩ = "default.yaml" ∧
    scopeLabel ⟨"paths.yaml", ".", "default", some "", none, true⟩ = "default" ∧
    outputFilename ⟨"paths.yaml", ".", "default", some "", none, true⟩ ≠ "default-.yaml" := by
  exact ⟨rfl, by decide, by decide, by decide⟩

/-- C5 amended: when a non-empty scope code is supplied the filename is
the scope, a dash, the scope code and the yaml suffix, and the top-level
label is the scope code; when the scope code is absent or empty the
filename is the scope with the yaml suffix and the label is the scope
name. -/
theorem scope_code_naming_amended (a : Args) :
    (∀ c, a.scope_code = some c → c ≠ "" →
      outputFilename a = a.scope ++ "-" ++ c ++ ".yaml" ∧ scopeLabel a = c) ∧
    ((a.scope_code = none ∨ a.scope_code = some "") →
      outputFilename a = a.scope ++ ".yaml" ∧ scopeLabel a = a.scope) := by
  constructor
  · intro c hc hne
    have ht : scopeCodeTruthy a = true := by simp [scopeCodeTruthy, hc, hne]
    simp [outputFilename, scopeLabel, ht, hc]
  · intro hc
    have ht : scopeCodeTruthy a = false := by
      rcases hc with h | h <;> simp [scopeCodeTruthy, h]
    simp [outputFilename, scopeLabel, ht]

/-- Witness for the amended C5 at a concrete non-empty scope code. -/
theorem scope_code_naming_amended_witness :
    outputFilename ⟨"paths.yaml", ".", "stores", some "english", none, true⟩ = "stores-english.yaml" ∧
    scopeLabel ⟨"paths.yaml", ".", "stores", some "english", none, true⟩ = "english" :=
  (scope_code_naming_amended ⟨"paths.yaml", ".", "stores", some "english", none, true⟩).1
    "english" rfl (by decide)

/-- C6: when the paths file is missing, or its document has no paths key,
or the paths list is empty, the loader fails with a ConfigError; the run
prints usage help, exits with a non-zero status, writes no file, and the
external command is never invoked. -/
theorem loader_failure_behavior (a : Args) (env : Env)
    (hbin : env.binExists = true)
    (h : env.pathsDoc = none ∨ env.pathsDoc = some none ∨ env.pathsDoc = some (some [])) :
    ∃ e, loadPaths env.pathsDoc = Except.error e ∧
      (runMain a env).outcome = Outcome.errConfig e ∧
      (runMain a env).helpPrinted = true ∧
      exitStatus (runMain a env).outcome = 1 ∧
      fileWritten (runMain a env) = none ∧
      (runMain a env).invoked = false := by
  have herr : ∃ e, loadPaths env.pathsDoc = Except.error e := by
    rcases h with h | h | h
    · exact ⟨ConfigError.fileNotFound, by rw [h]; rfl⟩
    · exact ⟨ConfigError.noPaths, by rw [h]; rfl⟩
    · exact ⟨ConfigError.noPaths, by rw [h]; rfl⟩
  obtain ⟨e, he⟩ := herr
  refine ⟨e, he, ?_, ?_, ?_, ?_, ?_⟩ <;>
    simp [runMain, hbin, he, exitStatus, fileWritten]

/-- Witness for C6 at a concrete environment with an empty paths list. -/
theorem loader_failure_behavior_witness :
    ∃ e, loadPaths (some (some ([] : List String))) = Except.error e ∧
      (runMain ⟨"paths.yaml", ".", "default", none, none, true⟩
        ⟨true, some (some []), ⟨0, "", ""⟩, ""⟩).outcome = Outcome.errConfig e ∧
      (runMain ⟨"paths.yaml", ".", "default", none, none, true⟩
        ⟨true, some (some []), ⟨0, "", ""⟩, ""⟩).helpPrinted = true ∧
      exitStatus (runMain ⟨"paths.yaml", ".", "default", none, none, true⟩
        ⟨true, some (some []), ⟨0, "", ""⟩, ""⟩).outcome = 1 ∧
      fileWritten (runMain ⟨"paths.yaml", ".", "default", none, none, true⟩
        ⟨true, some (some []), ⟨0, "", ""⟩, ""⟩) = none ∧
      (runMain ⟨"paths.yaml", ".", "default", none, none, true⟩
        ⟨true, some (some []), ⟨0, "", ""⟩, ""⟩).invoked = false :=
  loader_failure_behavior ⟨"paths.yaml", ".", "default", none, none, true⟩
    ⟨true, some (some []), ⟨0, "", ""⟩, ""⟩ rfl (Or.inr (Or.inr rfl))

/-- C8: the whole run is a function of the parsed arguments and of the
environment, so two runs over identical inputs and identical external
output produce identical results, in particular byte-identical written
files. -/
theorem export_deterministic (a1 a2 : Args) (e1 e2 : Env)
    (ha : a1 = a2) (he : e1 = e2) :
    fileWritten (runMain a1 e1) = fileWritten (runMain a2 e2) ∧
    runMain a1 e1 = runMain a2 e2 := by
  subst ha
  subst he
  exact ⟨rfl, rfl⟩

/-- Witness for C8 at a concrete run executed twice. -/
theorem export_deterministic_witness :
    fileWritten (runMain ⟨"paths.yaml", ".", "default", none, none, true⟩
        ⟨true, some (some ["web/seo"]), ⟨0, "web/seo/x - 1", ""⟩, ""⟩)
      = fileWritten (runMain ⟨"paths.yaml", ".", "default", none, none, true⟩
        ⟨true, some (some ["web/seo"]), ⟨0, "web/seo/x - 1", ""⟩, ""⟩) ∧
    runMain ⟨"paths.yaml", ".", "default", none, none, true⟩
        ⟨true, some (some ["web/seo"]), ⟨0, "web/seo/x - 1", ""⟩, ""⟩
      = runMain ⟨"paths.yaml", ".", "default", none, none, true⟩
        ⟨true, some (some ["web/seo"]), ⟨0, "web/seo/x - 1", ""⟩, ""⟩ :=
  export_deterministic _ _ _ _ rfl rfl

theorem pathsFold_no_match (k v : String) (l : List String) (d : List (String × String))
    (h : ∀ p ∈ l, startswith k p = false) : l.foldl (pathStep k v) d = d := by
  induction l generalizing d with
  | nil => rfl
  | cons p ps ih =>
    simp only [List.foldl_cons]
    rw [show pathStep k v d p = d by simp [pathStep, h p (List.mem_cons_self _ _)]]
    exact ih _ (fun q hq => h q (List.mem_cons_of_mem _ hq))

theorem lineStep_no_match (paths : List String) (d : List (String × String)) (line : String)
    (h : ∀ kv, parseLine line = some kv → ∀ p ∈ paths, startswith kv.1 p = false) :
    lineStep paths d line = d := by
  unfold lineStep
  cases hp : parseLine line with
  | none => rfl
  | some kv => exact pathsFold_no_match kv.1 kv.2 paths d (h kv hp)

theorem foldl_lineStep_no_match (paths lines : List String)
    (h : ∀ line ∈ lines, ∀ kv, parseLine line = some kv → ∀ p ∈ paths, startswith kv.1 p = false) :
    ∀ d, lines.foldl (lineStep paths) d = d := by
  induction lines with
  | nil => intro d; rfl
  | cons l ls ih =>
    intro d
    simp only [List.foldl_cons]
    rw [lineStep_no_match paths d l (h l (List.mem_cons_self _ _))]
    exact ih (fun line hl => h line (List.mem_cons_of_mem _ hl)) d

/-- C10: the export document always has the scope label as its only
top-level key; when no parsed key matches any requested prefix the inner
mapping stays empty, the file still renders the label over an empty flow
mapping, and the reported count of exported values is zero. -/
theorem single_top_level_key (label : String) (paths lines : List String)
    (h : ∀ line ∈ lines, ∀ kv, parseLine line = some kv → ∀ p ∈ paths, startswith kv.1 p = false) :
    (exportDoc label (collect paths lines)).map Prod.fst = [label] ∧
    collect paths lines = [] ∧
    serializeExport label (collect paths lines) = yamlQuote label ++ ": \x7b\x7d\n" ∧
    (collect paths lines).length = 0 := by
  have hc : collect paths lines = [] := foldl_lineStep_no_match paths lines h []
  refine ⟨by simp [exportDoc], hc, ?_, by simp [hc]⟩
  rw [hc]
  rfl

/-- Witness for C10 at a concrete non-matching line. -/
theorem single_top_level_key_witness :
    (exportDoc "default" (collect ["web/seo"] ["general/x - 1"])).map Prod.fst = ["default"] ∧
    collect ["web/seo"] ["general/x - 1"] = [] ∧
    serializeExport "default" (collect ["web/seo"] ["general/x - 1"])
      = yamlQuote "default" ++ ": \x7b\x7d\n" ∧
    (collect ["web/seo"] ["general/x - 1"]).length = 0 :=
  single_top_level_key "default" ["web/seo"] ["general/x - 1"] (by
    intro line hl kv hkv
    simp at hl
    subst hl
    have h2 : parseLine "general/x - 1" = some ("general/x", "1") := by decide
    rw [h2] at hkv
    cases Option.some.inj hkv
    decide)

theorem isPrefixL_trans (a b c : List Char)
    (h1 : isPrefixL a b = true) (h2 : isPrefixL b c = true) : isPrefixL a c = true := by
  induction a generalizing b c with
  | nil => rfl
  | cons x xs ih =>
    cases b with
    | nil => simp [isPrefixL] at h1
    | cons y ys =>
      cases c with
      | nil => simp [isPrefixL] at h2
      | cons z zs =>
        simp [isPrefixL] at h1 h2 ⊢
        exact ⟨h1.1.trans h2.1, ih ys zs h1.2 h2.2⟩

theorem startswith_trans_prefix (k q p : String)
    (hq : startswith q p = true) (hk : startswith k q = true) : startswith k p = true :=
  isPrefixL_trans p.data q.data k.data hq hk

theorem dictInsert_idem (d : List (String × String)) (k v : String) :
    dictInsert (dictInsert d k v) k v = dictInsert d k v := by
  induction d with
  | nil => simp [dictInsert]
  | cons kv0 rest ih =>
    obtain ⟨k0, v0⟩ := kv0
    by_cases h : k0 == k
    · simp [dictInsert, h]
    · simp [dictInsert, h, ih]

theorem pathStep_absorb (k v p : String) (d : List (String × String))
    (h : dictInsert d k v = d) :
    dictInsert (pathStep k v d p) k v = pathStep k v d p := by
  by_cases hs : startswith k p = true
  · simp [pathStep, hs, dictInsert_idem]
  · simp [pathStep, hs, h]

theorem foldl_pathStep_absorb (k v : String) (l : List String) (d : List (String × String))
    (h : dictInsert d k v = d) :
    dictInsert (l.foldl (pathStep k v) d) k v = l.foldl (pathStep k v) d := by
  induction l generalizing d with
  | nil => exact h
  | cons p ps ih =>
    simp only [List.foldl_cons]
    exact ih _ (pathStep_absorb k v p d h)

theorem exists_match_absorb (k v : String) (l : List String) (d : List (String × String))
    (h : ∃ p ∈ l, startswith k p = true) :
    dictInsert (l.foldl (pathStep k v) d) k v = l.foldl (pathStep k v) d := by
  induction l generalizing d with
  | nil => simp at h
  | cons p ps ih =>
    simp only [List.foldl_cons]
    by_cases hp : startswith k p = true
    · rw [show pathStep k v d p = dictInsert d k v by simp [pathStep, hp]]
      exact foldl_pathStep_absorb k v ps _ (dictInsert_idem d k v)
    · rw [show pathStep k v d p = d by simp [pathStep, hp]]
      apply ih
      rcases h with ⟨q, hq, hsw⟩
      rcases List.mem_cons.mp hq with rfl | hq2
      · exact absurd hsw hp
      · exact ⟨q, hq2, hsw⟩

theorem foldl_dictInsert_cancel (k v : String) (l : List String) (d : List (String × String))
    (h : ∃ p ∈ l, startswith k p = true) :
    l.foldl (pathStep k v) (dictInsert d k v) = l.foldl (pathStep k v) d := by
  induction l generalizing d with
  | nil => simp at h
  | cons p ps ih =>
    simp only [List.foldl_cons]
    by_cases hp : startswith k p = true
    · rw [show pathStep k v (dictInsert d k v) p = dictInsert d k v by
        simp [pathStep, hp, dictInsert_idem]]
      rw [show pathStep k v d p = dictInsert d k v by simp [pathStep, hp]]
    · rw [show pathStep k v (dictInsert d k v) p = dictInsert d k v by simp [pathStep, hp]]
      rw [show pathStep k v d p = d by simp [pathStep, hp]]
      apply ih
      rcases h with ⟨q, hq, hsw⟩
      rcases List.mem_cons.mp hq with rfl | hq2
      · exact absurd hsw hp
      · exact ⟨q, hq2, hsw⟩

theorem pathsFold_redundant (k v q : String) (pre post : List String)
    (d : List (String × String))
    (h : ∃ p ∈ pre ++ post, startswith q p = true) :
    (pre ++ q :: post).foldl (pathStep k v) d = (pre ++ post).foldl (pathStep k v) d := by
  rw [List.foldl_append, List.foldl_append, List.foldl_cons]
  by_cases hq : startswith k q = true
  · rcases h with ⟨p, hp, hqp⟩
    have hkp : startswith k p = true := startswith_trans_prefix k q p hqp hq
    rcases List.mem_append.mp hp with hpre | hpost
    · have habs := exists_match_absorb k v pre d ⟨p, hpre, hkp⟩
      rw [show pathStep k v (pre.foldl (pathStep k v) d) q = pre.foldl (pathStep k v) d by
        simp [pathStep, hq, habs]]
    · rw [show pathStep k v (pre.foldl (pathStep k v) d) q
          = dictInsert (pre.foldl (pathStep k v) d) k v by simp [pathStep, hq]]
      exact foldl_dictInsert_cancel k v post _ ⟨p, hpost, hkp⟩
  · rw [show pathStep k v (pre.foldl (pathStep k v) d) q = pre.foldl (pathStep k v) d by
      simp [pathStep, hq]]

theorem lineStep_redundant (pre post : List String) (q line : String)
    (d : List (String × String))
    (h : ∃ p ∈ pre ++ post, startswith q p = true) :
    lineStep (pre ++ q :: post) d line = lineStep (pre ++ post) d line := by
  unfold lineStep
  cases hp : parseLine line with
  | none => rfl
  | some kv => exact pathsFold_redundant kv.1 kv.2 q pre post d h

theorem foldl_lineStep_congr (P1 P2 lines : List String)
    (h : ∀ d line, lineStep P1 d line = lineStep P2 d line) :
    ∀ d, lines.foldl (lineStep P1) d = lines.foldl (lineStep P2) d := by
  induction lines with
  | nil => intro d; rfl
  | cons l ls ih =>
    intro d
    simp only [List.foldl_cons]
    rw [h d l]
    exact ih _

/-- C9: a requested prefix that duplicates another one, or more generally
extends another one, is redundant: removing it from the prefix list at
any position leaves the collected export mapping unchanged, entry for
entry and in order, because every insertion it triggers re-inserts the
same pair the covering prefix already inserted. -/
theorem redundant_prefix_no_change (pre post : List String) (q : String) (lines : List String)
    (h : ∃ p ∈ pre ++ post, startswith q p = true) :
    collect (pre ++ q :: post) lines = collect (pre ++ post) lines := by
  unfold collect
  exact foldl_lineStep_congr (pre ++ q :: post) (pre ++ post) lines
    (fun d line => lineStep_redundant pre post q line d h) []

/-- Witness for C9: a duplicated prefix changes nothing at a concrete
input. -/
theorem redundant_prefix_no_change_witness :
    collect (["web/seo"] ++ "web/seo" :: []) ["web/seo/x - 1"]
      = collect (["web/seo"] ++ []) ["web/seo/x - 1"] :=
  redundant_prefix_no_change ["web/seo"] [] "web/seo" ["web/seo/x - 1"]
    ⟨"web/seo", by simp, by decide⟩

theorem strLeAux_total (a b : List Char) : strLeAux a b = true ∨ strLeAux b a = true := by
  induction a generalizing b with
  | nil => exact Or.inl rfl
  | cons x xs ih =>
    cases b with
    | nil => exact Or.inr rfl
    | cons y ys =>
      by_cases h1 : x.toNat < y.toNat
      · left
        simp [strLeAux, h1]
      · by_cases h2 : y.toNat < x.toNat
        · right
          simp [strLeAux, h2]
        · rcases ih ys with h | h
          · left
            simp [strLeAux, h1, h2, h]
          · right
            simp [strLeAux, h1, h2, h]

theorem strLeAux_trans (a b c : List Char)
    (h1 : strLeAux a b = true) (h2 : strLeAux b c = true) : strLeAux a c = true := by
  induction a generalizing b c with
  | nil => rfl
  | cons x xs ih =>
    cases b with
    | nil => simp [strLeAux] at h1
    | cons y ys =>
      cases c with
      | nil => simp [strLeAux] at h2
      | cons z zs =>
        simp only [strLeAux] at h1 h2 ⊢
        by_cases hxy : x.toNat < y.toNat
        · by_cases hyz : y.toNat < z.toNat
          · simp [show x.toNat < z.toNat from hxy.trans hyz]
          · by_cases hzy : z.toNat < y.toNat
            · simp [hyz, hzy] at h2
            · simp [show x.toNat < z.toNat by omega]
        · by_cases hyx : y.toNat < x.toNat
          · simp [hxy, hyx] at h1
          · simp [hxy, hyx] at h1
            by_cases hyz : y.toNat < z.toNat
            · simp [show x.toNat < z.toNat by omega]
            · by_cases hzy : z.toNat < y.toNat
              · simp [hyz, hzy] at h2
              · simp [hyz, hzy] at h2
                simp [show ¬ x.toNat < z.toNat by omega, show ¬ z.toNat < x.toNat by omega]
                exact ih ys zs h1 h2

theorem strLe_total (a b : String) : strLe a b = true ∨ strLe b a = true :=
  strLeAux_total a.data b.data

theorem strLe_trans (a b c : String)
    (h1 : strLe a b = true) (h2 : strLe b c = true) : strLe a c = true :=
  strLeAux_trans a.data b.data c.data h1 h2

theorem mem_insertByKey (x a : String × String) (l : List (String × String)) :
    a ∈ insertByKey x l ↔ a = x ∨ a ∈ l := by
  induction l with
  | nil => simp [insertByKey]
  | cons y ys ih =>
    by_cases h : strLe x.1 y.1 = true
    · simp [insertByKey, h]
    · simp [insertByKey, h, ih]
      tauto

theorem pairwise_insertByKey (x : String × String) (l : List (String × String))
    (h : l.Pairwise keyLe) : (insertByKey x l).Pairwise keyLe := by
  induction l with
  | nil => simp [insertByKey, keyLe]
  | cons y ys ih =>
    rcases List.pairwise_cons.mp h with ⟨hy, hys⟩
    by_cases hxy : strLe x.1 y.1 = true
    · rw [show insertByKey x (y :: ys) = x :: y :: ys by simp [insertByKey, hxy]]
      refine List.pairwise_cons.mpr ⟨?_, h⟩
      intro z hz
      rcases List.mem_cons.mp hz with rfl | hz2
      · exact hxy
      · exact strLe_trans x.1 y.1 z.1 hxy (hy z hz2)
    · rw [show insertByKey x (y :: ys) = y :: insertByKey x ys by simp [insertByKey, hxy]]
      refine List.pairwise_cons.mpr ⟨?_, ih hys⟩
      intro z hz
      rcases (mem_insertByKey x z ys).mp hz with rfl | hz2
      · rcases strLe_total z.1 y.1 with h1 | h1
        · exact absurd h1 hxy
        · exact h1
      · exact hy z hz2

theorem pairwise_sortByKey (d : List (String × String)) : (sortByKey d).Pairwise keyLe := by
  induction d with
  | nil => simp [sortByKey]
  | cons x xs ih =>
    rw [show sortByKey (x :: xs) = insertByKey x (sortByKey xs) from rfl]
    exact pairwise_insertByKey x (sortByKey xs) ih

theorem mem_sortByKey (d : List (String × String)) (a : String × String) :
    a ∈ sortByKey d ↔ a ∈ d := by
  induction d with
  | nil => simp [sortByKey]
  | cons x xs ih =>
    rw [show sortByKey (x :: xs) = insertByKey x (sortByKey xs) from rfl, mem_insertByKey]
    simp [ih]

theorem yamlEscapeChar_plain (c : Char) (h1 : c ≠ '"') (h2 : c ≠ '\\') (h3 : c ≠ '\n') :
    yamlEscapeChar c = [c] := by
  simp [yamlEscapeChar, h1, h2, h3]

theorem flatten_map_escape (l : List Char)
    (h : ∀ c ∈ l, c ≠ '"' ∧ c ≠ '\\' ∧ c ≠ '\n') :
    (l.map yamlEscapeChar).flatten = l := by
  induction l with
  | nil => rfl
  | cons c cs ih =>
    obtain ⟨h1, h2, h3⟩ := h c (List.mem_cons_self _ _)
    simp only [List.map_cons, List.flatten_cons, yamlEscapeChar_plain c h1 h2 h3]
    rw [ih (fun x hx => h x (List.mem_cons_of_mem _ hx))]
    rfl

theorem yamlQuote_plain (s : String) (h : ∀ c ∈ s.data, c ≠ '"' ∧ c ≠ '\\' ∧ c ≠ '\n') :
    (yamlQuote s).data = '"' :: s.data ++ ['"'] := by
  show '"' :: (s.data.map yamlEscapeChar).flatten ++ ['"'] = _
  rw [flatten_map_escape s.data h]

theorem yamlQuote_delimiters (t : String) :
    (yamlQuote t).data.head? = some '"' ∧ (yamlQuote t).data.getLast? = some '"' := by
  constructor
  · rfl
  · show ('"' :: (t.data.map yamlEscapeChar).flatten ++ ['"']).getLast? = some '"'
    rw [show '"' :: (t.data.map yamlEscapeChar).flatten ++ ['"']
        = ('"' :: (t.data.map yamlEscapeChar).flatten) ++ ['"'] from rfl]
    rw [List.getLast?_concat]

/-- C7: the writer renders the export with its entries sorted by key in
code-point order and with every string scalar double-quoted: the sorted
entry list is pairwise ordered and holds exactly the collected entries,
every quoted scalar starts and ends with a double quote, a scalar free of
characters needing an escape, non-ASCII characters included, appears
literally between its quotes, and the document is the quoted label
followed by the quoted sorted entries. -/
theorem yaml_writer_properties (label : String) (d : List (String × String)) (s t : String)
    (hs : ∀ c ∈ s.data, c ≠ '"' ∧ c ≠ '\\' ∧ c ≠ '\n') :
    ((sortByKey d).map Prod.fst).Pairwise (fun a b => strLe a b = true) ∧
    (∀ kv, kv ∈ sortByKey d ↔ kv ∈ d) ∧
    (yamlQuote s).data = '"' :: s.data ++ ['"'] ∧
    (yamlQuote t).data.head? = some '"' ∧
    (yamlQuote t).data.getLast? = some '"' ∧
    serializeExport label d =
      (if (sortByKey d).isEmpty then yamlQuote label ++ ": \x7b\x7d\n"
        else yamlQuote label ++ ":\n" ++ concatList ((sortByKey d).map entryLine)) := by
  refine ⟨?_, fun kv => mem_sortByKey d kv, yamlQuote_plain s hs,
    (yamlQuote_delimiters t).1, (yamlQuote_delimiters t).2, rfl⟩
  rw [List.pairwise_map]
  exact pairwise_sortByKey d

/-- Witness for C7 at a concrete export holding a non-ASCII value. -/
theorem yaml_writer_properties_witness :
    ((sortByKey [("web/b", "1"), ("web/a", "é")]).map Prod.fst).Pairwise
      (fun a b => strLe a b = true) ∧
    (("web/a", "é") ∈ sortByKey [("web/b", "1"), ("web/a", "é")] ↔
      ("web/a", "é") ∈ [("web/b", "1"), ("web/a", "é")]) ∧
    (yamlQuote "é").data = '"' :: "é".data ++ ['"'] ∧
    (yamlQuote "web/b").data.head? = some '"' ∧
    (yamlQuote "web/b").data.getLast? = some '"' ∧
    serializeExport "default" [("web/b", "1"), ("web/a", "é")] =
      (if (sortByKey [("web/b", "1"), ("web/a", "é")]).isEmpty
        then yamlQuote "default" ++ ": \x7b\x7d\n"
        else yamlQuote "default" ++ ":\n"
          ++ concatList ((sortByKey [("web/b", "1"), ("web/a", "é")]).map entryLine)) :=
  have h := yaml_writer_properties "default" [("web/b", "1"), ("web/a", "é")] "é" "web/b"
    (by decide)
  ⟨h.1, h.2.1 ("web/a", "é"), h.2.2.1, h.2.2.2.1, h.2.2.2.2.1, h.2.2.2.2.2⟩

end MCE
